import Mathlib

/-!
Verification of the Hybrid NOrec transactional-memory program
(`hynorec_cgrundey.cpp`) against its natural-language specification.

The C++ routines are shallowly embedded as executable Lean functions.
Thread-shared state (`accts`, `seqlock`, `counter[]`) is a `GState`;
thread-local state (`read_set`, `write_set`, `rv`, `snap_counter`) is a
`TState`.  Loops that spin on shared state are modelled with explicit
fuel against a fixed (quiescent) global state: `none` means the loop has
not terminated within the given fuel, and a result that is `none` for
every fuel is a non-terminating execution.  The C++ `throw` in
`sw_abort` is modelled as an `Except.error` carrying the thread state
left behind (logs cleared).
-/

namespace HyNOrec

/-- Transfer amount of the bank workload (`TRFR_AMT`). -/
def TRFR_AMT : Int := 50

/-- Total number of transactions of the benchmark (`NUM_TXN`). -/
def NUM_TXN : Nat := 100000

/-- An entry of a read or write set: `struct { int addr; int value; }`. -/
structure Acct where
  addr : Nat
  value : Int
deriving DecidableEq, Repr

/-- Thread-shared global state: the account array `accts`, the global
`seqlock`, and the per-thread HTM commit counters `counter[72]`
(modelled as a list indexed by thread slot). -/
structure GState where
  accts : List Int
  seqlock : Nat
  counter : List Nat
deriving DecidableEq, Repr

/-- Thread-local state: `read_set`, `write_set`, the read version `rv`,
and the counter snapshot `snap_counter[72]`. -/
structure TState where
  read_set : List Acct
  write_set : List Acct
  rv : Nat
  snap_counter : List Nat
deriving DecidableEq, Repr

/-- Results of fallible routines are compared by witnesses, so decidable
equality on `Except` is needed. -/
instance instDecEqExcept (e a : Type) [DecidableEq e] [DecidableEq a] :
    DecidableEq (Except e a) := fun x y =>
  match x, y with
  | Except.error u, Except.error v =>
    if h : u = v then Decidable.isTrue (by rw [h])
    else Decidable.isFalse (by intro hc; cases hc; exact h rfl)
  | Except.error _, Except.ok _ => Decidable.isFalse (by intro hc; cases hc)
  | Except.ok _, Except.error _ => Decidable.isFalse (by intro hc; cases hc)
  | Except.ok u, Except.ok v =>
    if h : u = v then Decidable.isTrue (by rw [h])
    else Decidable.isFalse (by intro hc; cases hc; exact h rfl)

/-- The initial thread-local state: C++ `thread_local` lists start
empty, `rv = 0`, and the snapshot array default-initialized. -/
def t0 : TState :=
  { read_set := [], write_set := [], rv := 0, snap_counter := [] }

/-- `sw_abort` minus the throw: clear both logs.  The throw itself is
the `Except.error` constructor at each call site. -/
def sw_abort (t : TState) : TState :=
  { t with read_set := [], write_set := [] }

/-- The read-set scan of `sw_validate`: walk the read set in order and
fail at the first entry whose recorded value differs from the current
memory value `accts[addr].value`. -/
def validateScan (accts : List Int) : List Acct → Bool
  | [] => true
  | a :: rest =>
    if a.value ≠ accts.getD a.addr 0 then false else validateScan accts rest

/-- `sw_validate` against a fixed global state, with fuel.  The outer
do-while re-reads `seqlock` into `rv` until even (each spin iteration
consumes one fuel; with `seqlock` fixed and odd this never exits), then
scans the read set, aborting on a mismatch, and repeats if `seqlock`
moved (impossible against a fixed `g`, but kept from the source). -/
def sw_validateF (g : GState) : TState → Nat → Option (Except TState TState)
  | _, 0 => none
  | t, fuel + 1 =>
    let t' := { t with rv := g.seqlock }
    if g.seqlock % 2 = 1 then
      sw_validateF g t' fuel
    else if validateScan g.accts t'.read_set then
      if t'.rv ≠ g.seqlock then sw_validateF g t' fuel
      else some (Except.ok t')
    else some (Except.error (sw_abort t'))

/-- `sw_begin` against a fixed global state, with fuel: spin-read
`seqlock` into `rv` until even, then copy the whole `counter` array
into `snap_counter`.  The logs are not touched. -/
def sw_beginF (g : GState) : TState → Nat → Option TState
  | _, 0 => none
  | t, fuel + 1 =>
    let t' := { t with rv := g.seqlock }
    if g.seqlock % 2 = 1 then sw_beginF g t' fuel
    else some { t' with snap_counter := g.counter }

/-- The write-set lookup of `sw_read`: reverse scan, first match from
the back wins (i.e. the most recently buffered value for `addr`). -/
def wsLookup (addr : Nat) : List Acct → Option Int
  | [] => none
  | a :: rest =>
    match wsLookup addr rest with
    | some v => some v
    | none => if a.addr = addr then some a.value else none

/-- The `while (rv != seqlock)` loop of `sw_read`: validate and re-load
the value until `rv` agrees with `seqlock`, then append `(addr, val)`
to the read set and return `val`. -/
def sw_readLoopF (g : GState) (addr : Nat) :
    Nat → TState → Int → Option (Except TState (TState × Int))
  | 0, _, _ => none
  | fuel + 1, t, val =>
    if t.rv ≠ g.seqlock then
      match sw_validateF g t fuel with
      | none => none
      | some (Except.error t') => some (Except.error t')
      | some (Except.ok t') => sw_readLoopF g addr fuel t' (g.accts.getD addr 0)
    else
      some (Except.ok ({ t with read_set := t.read_set ++ [⟨addr, val⟩] }, val))

/-- `sw_read` against a fixed global state, with fuel: serve the read
from the write set when possible (last write wins, no read-set append),
otherwise load from memory, validating while `rv` and `seqlock`
disagree, and log the read. -/
def sw_readF (g : GState) (t : TState) (addr : Nat) (fuel : Nat) :
    Option (Except TState (TState × Int)) :=
  match wsLookup addr t.write_set with
  | some v => some (Except.ok (t, v))
  | none => sw_readLoopF g addr fuel t (g.accts.getD addr 0)

/-- `sw_write`: append `(addr, val)` to the write set; no shared-memory
effect (the function does not touch `GState` at all). -/
def sw_write (t : TState) (addr : Nat) (val : Int) : TState :=
  { t with write_set := t.write_set ++ [⟨addr, val⟩] }

/-- The concurrent-HTM check of `sw_commit`: compare all 72 snapshot
slots with the live counters; true when some slot differs. -/
def countersDiffer (snap ctr : List Nat) : Bool :=
  (List.range 72).any fun i => decide (snap.getD i 0 ≠ ctr.getD i 0)

/-- The writeback phase of `sw_commit`: apply each `(addr, value)` of
the write set, in write-set order, to the account array. -/
def writeback (accts : List Int) : List Acct → List Int
  | [] => accts
  | a :: rest => writeback (accts.set a.addr a.value) rest

/-- The CAS acquisition loop of `sw_commit` against a fixed global
state: `__sync_bool_compare_and_swap(&seqlock, rv, rv+1)` succeeds
exactly when `seqlock = rv` (making `seqlock` odd for even `rv`); on
failure run `sw_validate` (which updates `rv`) and retry. -/
def casLoopF (g : GState) : TState → Nat → Option (Except TState (GState × TState))
  | _, 0 => none
  | t, fuel + 1 =>
    if g.seqlock = t.rv then
      some (Except.ok ({ g with seqlock := t.rv + 1 }, t))
    else
      match sw_validateF g t fuel with
      | none => none
      | some (Except.error t') => some (Except.error t')
      | some (Except.ok t') => casLoopF g t' fuel

/-- The tail of a successful `sw_commit`: writeback in write-set order,
then `seqlock++` (odd back to even), then clear both logs. -/
def commitFinish (g : GState) (t : TState) : GState × TState :=
  ({ g with accts := writeback g.accts t.write_set, seqlock := g.seqlock + 1 },
   { t with read_set := [], write_set := [] })

/-- `sw_commit` against a quiescent environment, with fuel: return at
once on an empty write set (no log is cleared on that path); otherwise
CAS-acquire the window, run `sw_validate` once if any counter slot
moved since the snapshot, write back, release, and clear the logs.
An abort (`Except.error`) carries the global state as left behind. -/
def sw_commitF (g : GState) (t : TState) (fuel : Nat) :
    Option (Except (GState × TState) (GState × TState)) :=
  if t.write_set = [] then some (Except.ok (g, t))
  else
    match casLoopF g t fuel with
    | none => none
    | some (Except.error t') => some (Except.error (g, t'))
    | some (Except.ok (g1, t1)) =>
      if countersDiffer t1.snap_counter g1.counter then
        match sw_validateF g1 t1 fuel with
        | none => none
        | some (Except.error t') => some (Except.error (g1, t'))
        | some (Except.ok t2) => some (Except.ok (commitFinish g1 t2))
      else some (Except.ok (commitFinish g1 t1))

/-- Non-termination of a commit in the quiescent model: no amount of
fuel makes `sw_commitF` return. -/
def commitDiverges (g : GState) (t : TState) : Prop :=
  ∀ fuel, sw_commitF g t fuel = none

/-- Outcome of one dispatcher round (`th_run`'s inner `do` body): the
path that committed, with the number of `_xbegin` calls made in the
round. -/
inductive PathTaken where
  | htm (tries : Nat)
  | software (tries : Nat)
deriving DecidableEq, Repr

/-- The HTM retry loop of `th_run`: `attempts = 5; again: status =
_xbegin(); if started, commit HTM; else if attempts > 0, decrement and
goto again; else take the software path.  `oracle i` tells whether the
i-th `_xbegin` of the round leads to a hardware commit; `tryIdx` counts
the `_xbegin` calls already made. -/
def htmLoop (oracle : Nat → Bool) : Nat → Nat → PathTaken
  | tryIdx, attempts =>
    if oracle tryIdx then PathTaken.htm (tryIdx + 1)
    else
      match attempts with
      | 0 => PathTaken.software (tryIdx + 1)
      | a + 1 => htmLoop oracle (tryIdx + 1) a

/-- One dispatcher round, entered with a fresh `attempts = 5`. -/
def dispatchOnce (oracle : Nat → Bool) : PathTaken :=
  htmLoop oracle 0 5

/-- The outer `do ... while (aborted)` of `th_run`: a round whose
software attempt aborts (`swAborts round`) restarts the whole
transaction with `attempts` reset to 5 (a fresh `dispatchOnce`); a
hardware commit or a non-aborting software attempt ends the loop. -/
def txnLoop (oracle : Nat → Nat → Bool) (swAborts : Nat → Bool) :
    Nat → Nat → Option (Nat × PathTaken)
  | _, 0 => none
  | round, fuel + 1 =>
    match dispatchOnce (oracle round) with
    | PathTaken.htm k => some (round, PathTaken.htm k)
    | PathTaken.software n =>
      if swAborts round then txnLoop oracle swAborts (round + 1) fuel
      else some (round, PathTaken.software n)

/-- The body of the hardware transaction of `th_run`, run over the
account array with a pre-drawn stream of distinct random pairs: per
iteration `a1 = accts[r1]; if (a1 < TRFR_AMT) break; a2 = accts[r2];
accts[r1] = a1 - TRFR_AMT; accts[r2] = a2 - TRFR_AMT` (both sides are
debited, as in the source). -/
def htmBody (accts : List Int) : List (Nat × Nat) → List Int
  | [] => accts
  | (r1, r2) :: rest =>
    let a1 := accts.getD r1 0
    if a1 < TRFR_AMT then accts
    else
      let a2 := accts.getD r2 0
      htmBody ((accts.set r1 (a1 - TRFR_AMT)).set r2 (a2 - TRFR_AMT)) rest

/-- One whole hardware transaction: abort at the prologue if `seqlock`
is odd, else run the body and increment this thread's `counter` slot as
the last transactional store. -/
def htmTxn (g : GState) (tid : Nat) (pairs : List (Nat × Nat)) : Option GState :=
  if g.seqlock % 2 = 1 then none
  else
    some { g with
            accts := htmBody g.accts pairs,
            counter := g.counter.set tid (g.counter.getD tid 0 + 1) }

/-- The body of the software transaction of `th_run`, over the same
pre-drawn pair stream: per iteration `a1 = sw_read(r1); if (a1 <
TRFR_AMT) break; a2 = sw_read(r2); sw_write(r1, a1 - TRFR_AMT);
sw_write(r2, a2 + TRFR_AMT)` (debit one side, credit the other). -/
def swBody (g : GState) : TState → List (Nat × Nat) → Nat → Option (Except TState TState)
  | t, [], _ => some (Except.ok t)
  | t, (r1, r2) :: rest, fuel =>
    match sw_readF g t r1 fuel with
    | none => none
    | some (Except.error t') => some (Except.error t')
    | some (Except.ok (t1, a1)) =>
      if a1 < TRFR_AMT then some (Except.ok t1)
      else
        match sw_readF g t1 r2 fuel with
        | none => none
        | some (Except.error t') => some (Except.error t')
        | some (Except.ok (t2, a2)) =>
          swBody g (sw_write (sw_write t2 r1 (a1 - TRFR_AMT)) r2 (a2 + TRFR_AMT)) rest fuel

/-- One whole software transaction from the initial thread-local state:
`sw_begin`, the transfer body, `sw_commit`. -/
def swTxn (g : GState) (pairs : List (Nat × Nat)) (fuel : Nat) :
    Option (Except (GState × TState) (GState × TState)) :=
  match sw_beginF g t0 fuel with
  | none => none
  | some t1 =>
    match swBody g t1 pairs fuel with
    | none => none
    | some (Except.error t') => some (Except.error (g, t'))
    | some (Except.ok t2) => sw_commitF g t2 fuel

/-- The final account array of a committed software transaction, when
there is one. -/
def swFinalAccts (r : Option (Except (GState × TState) (GState × TState))) :
    Option (List Int) :=
  match r with
  | some (Except.ok (g, _)) => some g.accts
  | _ => none

/-- Outcome of the argument check of `main`: either print the usage
message and `exit(code)`, or proceed with the given thread count. -/
inductive CliOutcome where
  | usage (exitCode : Nat)
  | run (numThreads : Int)
deriving DecidableEq, Repr

/-- The argument check of `main`: `argc` is the argument count and `n`
the `atoi` value of `argv[1]` (0 when absent or non-numeric).  Both
failure branches of the source call `exit(0)`. -/
def mainCli (argc : Nat) (n : Int) : CliOutcome :=
  if argc ≠ 2 then CliOutcome.usage 0
  else if n ≤ 0 ∨ n > 64 then CliOutcome.usage 0
  else CliOutcome.run n

/-- Per-thread workload of `th_run`: `NUM_TXN / numThreads` in integer
division. -/
def workloadOf (numThreads : Nat) : Nat := NUM_TXN / numThreads

/-- Number of threads running `th_run`: `main` spawns `numThreads - 1`
worker threads (ids 1 .. numThreads-1) and then runs `th_run(0)`
itself. -/
def threadCount (numThreads : Nat) : Nat := (numThreads - 1) + 1

/-- Total number of committed transactions across all threads: each
thread's `for` loop commits exactly one transaction per iteration. -/
def totalCommitted (numThreads : Nat) : Nat :=
  threadCount numThreads * workloadOf numThreads

/-- A counter array with slot 0 advanced once (one HTM commit). -/
def exCounter1 : List Nat := (List.replicate 72 0).set 0 1

/-- Global state in which one HTM commit happened after the snapshot
below was taken. -/
def gDiff : GState := { accts := [0], seqlock := 0, counter := exCounter1 }

/-- Thread state of a writing software transaction whose counter
snapshot predates the HTM commit recorded in `gDiff`. -/
def tDiff : TState :=
  { read_set := [], write_set := [⟨0, 1⟩], rv := 0,
    snap_counter := List.replicate 72 0 }

/-- A quiescent global state with one account. -/
def gEven : GState := { accts := [7], seqlock := 0, counter := [] }

/-- Thread state of a read-only transaction: non-empty read set, empty
write set. -/
def tReadOnly : TState :=
  { read_set := [⟨0, 5⟩], write_set := [], rv := 0, snap_counter := [] }

/-- Thread state whose read set disagrees with the memory of `gEven`
(entry says 5, memory holds 7): validation must abort. -/
def tMismatch : TState :=
  { read_set := [⟨0, 5⟩], write_set := [⟨0, 9⟩], rv := 0, snap_counter := [] }

/-- Two accounts of 100 in a quiescent state, for the workload-body
comparison. -/
def gPair : GState :=
  { accts := [100, 100], seqlock := 0, counter := List.replicate 72 0 }

/-- A quiescent global state for the commit example. -/
def gCommit : GState :=
  { accts := [10, 20], seqlock := 4, counter := List.replicate 72 0 }

/-- Thread state of a writing transaction matching `gCommit`: `rv`
equal to `seqlock` and a snapshot equal to the live counters. -/
def tCommit : TState :=
  { read_set := [], write_set := [⟨0, 99⟩], rv := 4,
    snap_counter := List.replicate 72 0 }

/-- A small global state for the buffered-read example. -/
def gRead : GState := { accts := [3, 4], seqlock := 0, counter := [] }

/-- Thread state with two buffered writes to address 1 (7 first, then
9): a read of 1 must return 9. -/
def tRead : TState :=
  { read_set := [], write_set := [⟨1, 7⟩, ⟨1, 9⟩], rv := 0, snap_counter := [] }

/-- With a fixed odd `seqlock`, `sw_validate` never returns: the inner
`rv = seqlock` spin never sees an even value, whatever the fuel. -/
theorem validate_odd_none (g : GState) (h : g.seqlock % 2 = 1) :
    ∀ fuel t, sw_validateF g t fuel = none := by
  intro fuel
  induction fuel with
  | zero => intro t; rfl
  | succ f ih =>
    intro t
    simp only [sw_validateF]
    rw [if_pos h]
    exact ih _

/-- With an even `seqlock` and a passing read-set scan, `sw_validate`
returns at once, updating only `rv`. -/
theorem validate_even_ok (g : GState) (t : TState) (fuel : Nat)
    (hev : g.seqlock % 2 = 0) (hscan : validateScan g.accts t.read_set = true) :
    sw_validateF g t (fuel + 1) = some (Except.ok { t with rv := g.seqlock }) := by
  simp [sw_validateF, hev, hscan]

/-- Any abort out of `sw_validate` leaves both logs cleared. -/
theorem validate_error_clears (g : GState) :
    ∀ fuel t t', sw_validateF g t fuel = some (Except.error t') →
      t'.read_set = [] ∧ t'.write_set = [] := by
  intro fuel
  induction fuel with
  | zero => intro t t' h; exact absurd h (by simp [sw_validateF])
  | succ f ih =>
    intro t t' h
    simp only [sw_validateF] at h
    split at h
    · exact ih _ _ h
    · split at h
      · split at h
        · exact ih _ _ h
        · simp at h
      · simp only [Option.some.injEq, Except.error.injEq] at h
        subst h
        exact ⟨rfl, rfl⟩

/-- A normal return of `sw_validate` only re-reads `rv` from `seqlock`. -/
theorem validate_ok_shape (g : GState) :
    ∀ fuel t t', sw_validateF g t fuel = some (Except.ok t') →
      t' = { t with rv := g.seqlock } := by
  intro fuel
  induction fuel with
  | zero => intro t t' h; exact absurd h (by simp [sw_validateF])
  | succ f ih =>
    intro t t' h
    simp only [sw_validateF] at h
    split at h
    · have := ih _ _ h
      exact this
    · split at h
      · split at h
        · have := ih _ _ h
          exact this
        · simp only [Option.some.injEq, Except.ok.injEq] at h
          exact h.symm
      · simp at h

/-- Any abort out of the CAS acquisition loop comes from `sw_validate`
and so leaves both logs cleared. -/
theorem casLoop_error_clears (g : GState) :
    ∀ fuel t t', casLoopF g t fuel = some (Except.error t') →
      t'.read_set = [] ∧ t'.write_set = [] := by
  intro fuel
  induction fuel with
  | zero => intro t t' h; exact absurd h (by simp [casLoopF])
  | succ f ih =>
    intro t t' h
    simp only [casLoopF] at h
    split at h
    · simp at h
    · rcases hv : sw_validateF g t f with _ | te | tOk
      · rw [hv] at h; simp at h
      · rw [hv] at h
        simp only [Option.some.injEq, Except.error.injEq] at h
        subst h
        exact validate_error_clears g f t _ hv
      · rw [hv] at h
        exact ih _ _ h

/-- A successful CAS acquisition advances `seqlock` by one, sets `rv`
to the pre-acquisition `seqlock`, and leaves the logs and the snapshot
untouched. -/
theorem casLoop_ok_shape (g : GState) :
    ∀ fuel t g1 t1, casLoopF g t fuel = some (Except.ok (g1, t1)) →
      g1 = { g with seqlock := g.seqlock + 1 } ∧ t1.rv = g.seqlock ∧
      t1.read_set = t.read_set ∧ t1.write_set = t.write_set ∧
      t1.snap_counter = t.snap_counter := by
  intro fuel
  induction fuel with
  | zero => intro t g1 t1 h; exact absurd h (by simp [casLoopF])
  | succ f ih =>
    intro t g1 t1 h
    simp only [casLoopF] at h
    split at h
    · rename_i heq
      simp only [Option.some.injEq, Except.ok.injEq, Prod.mk.injEq] at h
      obtain ⟨hg, ht⟩ := h
      subst ht
      refine ⟨?_, heq.symm, rfl, rfl, rfl⟩
      rw [← hg, heq]
    · rcases hv : sw_validateF g t f with _ | te | tOk
      · rw [hv] at h; simp at h
      · rw [hv] at h; simp at h
      · rw [hv] at h
        have hto := validate_ok_shape g f t tOk hv
        subst hto
        have := ih _ _ _ h
        exact ⟨this.1, this.2.1, this.2.2.1, this.2.2.2.1, this.2.2.2.2⟩

/-- Any abort out of the re-load loop of `sw_read` comes from
`sw_validate` and so leaves both logs cleared. -/
theorem readLoop_error_clears (g : GState) (addr : Nat) :
    ∀ fuel t val t', sw_readLoopF g addr fuel t val = some (Except.error t') →
      t'.read_set = [] ∧ t'.write_set = [] := by
  intro fuel
  induction fuel with
  | zero => intro t val t' h; exact absurd h (by simp [sw_readLoopF])
  | succ f ih =>
    intro t val t' h
    simp only [sw_readLoopF] at h
    split at h
    · rcases hv : sw_validateF g t f with _ | te | tOk
      · rw [hv] at h; simp at h
      · rw [hv] at h
        simp only [Option.some.injEq, Except.error.injEq] at h
        subst h
        exact validate_error_clears g f t _ hv
      · rw [hv] at h
        exact ih _ _ _ h
    · simp at h

/-- The HTM retry loop reaches the software path only after exhausting
its attempt budget: with `attempts` remaining and `tryIdx` calls
already made, the software path starts after `tryIdx + attempts + 1`
calls to `_xbegin` in total. -/
theorem htmLoop_software_count (oracle : Nat → Bool) :
    ∀ attempts tryIdx n,
      htmLoop oracle tryIdx attempts = PathTaken.software n →
      n = tryIdx + attempts + 1 := by
  intro attempts
  induction attempts with
  | zero =>
    intro tryIdx n h
    simp only [htmLoop] at h
    split at h
    · simp at h
    · simp only [PathTaken.software.injEq] at h
      omega
  | succ a ih =>
    intro tryIdx n h
    simp only [htmLoop] at h
    split at h
    · simp at h
    · have := ih (tryIdx + 1) n h
      omega

/-- A hardware commit out of the HTM retry loop happens somewhere
between the first and the last budgeted `_xbegin`. -/
theorem htmLoop_htm_bound (oracle : Nat → Bool) :
    ∀ attempts tryIdx k,
      htmLoop oracle tryIdx attempts = PathTaken.htm k →
      tryIdx + 1 ≤ k ∧ k ≤ tryIdx + attempts + 1 := by
  intro attempts
  induction attempts with
  | zero =>
    intro tryIdx k h
    simp only [htmLoop] at h
    split at h
    · simp only [PathTaken.htm.injEq] at h
      omega
    · simp at h
  | succ a ih =>
    intro tryIdx k h
    simp only [htmLoop] at h
    split at h
    · simp only [PathTaken.htm.injEq] at h
      omega
    · have := ih (tryIdx + 1) k h
      omega

/-- C1 (code bug): invoked from `sw_commit` once the writeback window
is held (`seqlock` odd, equal to `rv + 1`, owned by this thread, no
concurrent modification), `sw_validate` is claimed to terminate and
re-verify only the read-set values.  In the source its inner
`rv = seqlock` spin loop never exits while `seqlock` is odd, so the
whole commit hangs: for every fuel the model returns `none`. -/
theorem c1_commit_owner_validate_diverges (g : GState) (t : TState)
    (hws : t.write_set ≠ []) (heq : g.seqlock = t.rv) (hrv : t.rv % 2 = 0)
    (hdiff : countersDiffer t.snap_counter g.counter = true) :
    ∀ fuel, sw_commitF g t fuel = none := by
  intro fuel
  cases fuel with
  | zero =>
    simp only [sw_commitF, casLoopF]
    rw [if_neg hws]
  | succ f =>
    have hodd : ({ g with seqlock := t.rv + 1 } : GState).seqlock % 2 = 1 := by
      simp only []
      omega
    simp only [sw_commitF]
    rw [if_neg hws]
    have hcas : casLoopF g t (f + 1) =
        some (Except.ok ({ g with seqlock := t.rv + 1 }, t)) := by
      simp only [casLoopF]
      rw [if_pos heq]
    rw [hcas]
    simp only [hdiff, if_true]
    rw [validate_odd_none _ hodd (f + 1) t]

/-- C1 witness: a concrete commit in which the window is acquired and a
counter slot moved.  The commit does not terminate for fuel 7 (nor any
other fuel). -/
theorem c1_commit_owner_validate_diverges_witness :
    tDiff.write_set ≠ [] ∧ gDiff.seqlock = tDiff.rv ∧ tDiff.rv % 2 = 0 ∧
    countersDiffer tDiff.snap_counter gDiff.counter = true ∧
    sw_commitF gDiff tDiff 7 = none :=
  ⟨by decide, by decide, by decide, by decide,
   c1_commit_owner_validate_diverges gDiff tDiff (by decide) (by decide)
     (by decide) (by decide) 7⟩

/-- C2 counterexample: when every `_xbegin` aborts, the dispatcher
reaches the software path only after six HTM attempts (`attempts`
counts down 5, 4, 3, 2, 1, 0, each value preceded by one `_xbegin`),
refuting "at most five times". -/
theorem c2_six_htm_attempts_counterexample :
    dispatchOnce (fun _ => false) = PathTaken.software 6 ∧ ¬ (6 ≤ 5) := by
  exact ⟨rfl, by decide⟩

/-- C2 (amended): the dispatcher executes the HTM path at most six
times per round, falling back to exactly one software attempt after
exactly six HTM aborts; on each HTM abort with `attempts > 0` it
decrements and retries (the definition of `htmLoop`), and after a
software abort `txnLoop` restarts the round with `attempts` reset to 5
(a fresh `dispatchOnce`), so any round that falls back did six HTM
attempts. -/
theorem c2_dispatch_amended (oracle : Nat → Nat → Bool) (swAborts : Nat → Bool) :
    (∀ r n, dispatchOnce (oracle r) = PathTaken.software n → n = 6) ∧
    (∀ r k, dispatchOnce (oracle r) = PathTaken.htm k → 1 ≤ k ∧ k ≤ 6) ∧
    (∀ round fuel r n,
      txnLoop oracle swAborts round fuel = some (r, PathTaken.software n) →
      n = 6) := by
  refine ⟨?_, ?_, ?_⟩
  · intro r n h
    have := htmLoop_software_count (oracle r) 5 0 n h
    omega
  · intro r k h
    have := htmLoop_htm_bound (oracle r) 5 0 k h
    omega
  · intro round fuel r n
    induction fuel generalizing round with
    | zero =>
      intro h
      exact absurd h (by simp [txnLoop])
    | succ f ih =>
      intro h
      simp only [txnLoop] at h
      rcases hd : dispatchOnce (oracle round) with k | m
      · rw [hd] at h
        have h' : some (round, PathTaken.htm k) = some (r, PathTaken.software n) := h
        simp at h'
      · rw [hd] at h
        have h' : (if swAborts round then txnLoop oracle swAborts (round + 1) f
            else some (round, PathTaken.software m)) =
            some (r, PathTaken.software n) := h
        split at h'
        · exact ih (round + 1) h'
        · simp only [Option.some.injEq, Prod.mk.injEq,
            PathTaken.software.injEq] at h'
          obtain ⟨-, hmn⟩ := h'
          subst hmn
          have := htmLoop_software_count (oracle round) 5 0 _ hd
          omega

/-- C2 witness for the amended theorem: with an always-aborting oracle
the software fallback of round 0 indeed comes after six attempts. -/
theorem c2_dispatch_amended_witness :
    dispatchOnce ((fun _ _ => false) 0) = PathTaken.software 6 ∧ (6 : Nat) = 6 :=
  ⟨rfl, (c2_dispatch_amended (fun _ _ => false) (fun _ => false)).1 0 6 rfl⟩

/-- C3 (code bug): on the same deterministic pair stream, the HTM body
debits both accounts (`accts[r2] = a2 - TRFR_AMT`) while the software
body credits the second (`sw_write(r2, a2 + TRFR_AMT)`), so an
HTM-only run and a software-only run end in different account states:
from two accounts of 100, HTM ends at [50, 50] and software at
[50, 150]. -/
theorem c3_htm_sw_final_states_differ :
    (htmTxn gPair 0 [(0, 1)]).map GState.accts = some [50, 50] ∧
    swFinalAccts (swTxn gPair [(0, 1)] 4) = some [50, 150] ∧
    (htmTxn gPair 0 [(0, 1)]).map GState.accts ≠
      swFinalAccts (swTxn gPair [(0, 1)] 4) := by
  refine ⟨by decide, by decide, by decide⟩

/-- C4 counterexample: a read-only commit (empty write set, non-empty
read set) returns success with the read set still in place — the
source's `if (write_set.empty()) return;` clears nothing, refuting
"both the read set and the write set are cleared". -/
theorem c4_read_set_kept_counterexample :
    sw_commitF gEven tReadOnly 3 = some (Except.ok (gEven, tReadOnly)) ∧
    tReadOnly.read_set ≠ [] := by
  exact ⟨by decide, by decide⟩

/-- C4 (amended): a commit with an empty write set returns success at
once, with `seqlock`, `counter`, shared memory and the whole
thread-local state unchanged — in particular the read set is NOT
cleared (the already-empty write set trivially stays empty). -/
theorem c4_empty_write_set_commit (g : GState) (t : TState) (fuel : Nat)
    (h : t.write_set = []) :
    sw_commitF g t fuel = some (Except.ok (g, t)) := by
  simp [sw_commitF, h]

/-- C4 witness: the amended theorem at the concrete read-only state. -/
theorem c4_empty_write_set_commit_witness :
    tReadOnly.write_set = [] ∧
    sw_commitF gEven tReadOnly 3 = some (Except.ok (gEven, tReadOnly)) :=
  ⟨by decide, c4_empty_write_set_commit gEven tReadOnly 3 (by decide)⟩

/-- C5 counterexample: `sw_begin` from a state with a stale read-set
entry returns with that entry still logged — the source's `sw_begin`
never clears the logs, refuting "both logs are empty when sw_begin
returns". -/
theorem c5_begin_keeps_logs_counterexample :
    (sw_beginF gEven tReadOnly 1).map TState.read_set ≠ some [] := by
  decide

/-- C5 (amended): `sw_begin` spins until it reads an even `seqlock`
into `rv` and snapshots the entire `counter` array into
`snap_counter`; the read set and the write set are left exactly as
they were (they are cleared only by `sw_abort` and by a writing
`sw_commit`). -/
theorem c5_begin_amended (g : GState) (t : TState) (fuel : Nat)
    (hev : g.seqlock % 2 = 0) :
    sw_beginF g t (fuel + 1) =
      some { t with rv := g.seqlock, snap_counter := g.counter } := by
  simp [sw_beginF, hev]

/-- C5 witness: the amended theorem at the concrete stale-log state. -/
theorem c5_begin_amended_witness :
    gEven.seqlock % 2 = 0 ∧
    sw_beginF gEven tReadOnly 1 =
      some { tReadOnly with rv := gEven.seqlock, snap_counter := gEven.counter } :=
  ⟨by decide, c5_begin_amended gEven tReadOnly 0 (by decide)⟩

/-- C6 (confirmed): `sw_read(addr)` (i) returns the most recently
buffered value when `addr` is in the write set (reverse scan, last
write wins), touching neither memory, the read set, nor any
thread-local field; (ii) otherwise, when `seqlock` equals `rv`, loads
the memory value, appends `(addr, value)` to the read set and returns
it; (iii) when `seqlock` differs from `rv`, first validates (updating
`rv`) and re-loads, then appends and returns. -/
theorem c6_sw_read_spec (g : GState) (t : TState) (addr : Nat) (fuel : Nat) :
    (∀ v, wsLookup addr t.write_set = some v →
        sw_readF g t addr fuel = some (Except.ok (t, v))) ∧
    (wsLookup addr t.write_set = none → t.rv = g.seqlock →
        sw_readF g t addr (fuel + 1) =
          some (Except.ok
            ({ t with read_set := t.read_set ++ [⟨addr, g.accts.getD addr 0⟩] },
             g.accts.getD addr 0))) ∧
    (wsLookup addr t.write_set = none → t.rv ≠ g.seqlock →
        g.seqlock % 2 = 0 → validateScan g.accts t.read_set = true →
        sw_readF g t addr (fuel + 2) =
          some (Except.ok
            ({ t with
                rv := g.seqlock,
                read_set := t.read_set ++ [⟨addr, g.accts.getD addr 0⟩] },
             g.accts.getD addr 0))) := by
  refine ⟨?_, ?_, ?_⟩
  · intro v hv
    simp [sw_readF, hv]
  · intro hnone heq
    simp [sw_readF, hnone, sw_readLoopF, heq]
  · intro hnone hne hev hscan
    simp only [sw_readF, hnone]
    simp only [sw_readLoopF]
    rw [if_pos hne, validate_even_ok g t fuel hev hscan]
    simp only [sw_readLoopF]
    rw [if_neg (by simp)]

/-- C6 witness: with two buffered writes to address 1 (7 then 9), the
read of address 1 is served from the write set and returns 9. -/
theorem c6_sw_read_spec_witness :
    wsLookup 1 tRead.write_set = some 9 ∧
    sw_readF gRead tRead 1 3 = some (Except.ok (tRead, 9)) :=
  ⟨by decide, (c6_sw_read_spec gRead tRead 1 3).1 9 (by decide)⟩

/-- With an even quiescent `seqlock` and a passing read-set scan, the
CAS loop acquires the window in at most one validate round, advancing
`seqlock` by one (even to odd) and setting `rv` to the pre-acquisition
`seqlock`. -/
theorem casLoop_quiescent (g : GState) (t : TState) (fuel : Nat)
    (hev : g.seqlock % 2 = 0) (hscan : validateScan g.accts t.read_set = true) :
    casLoopF g t (fuel + 2) =
      some (Except.ok ({ g with seqlock := g.seqlock + 1 },
        { t with rv := g.seqlock })) := by
  by_cases heq : g.seqlock = t.rv
  · simp only [casLoopF]
    rw [if_pos heq, heq]
  · simp only [casLoopF]
    rw [if_neg heq, validate_even_ok g t fuel hev hscan]
    simp [casLoopF]

/-- Once the writeback window is acquired with the counter snapshot
stale (some HTM commit happened since begin), the once-only validate of
the concurrent-HTM check runs against the self-owned odd `seqlock` and
never returns: the whole commit diverges, whatever the fuel. -/
theorem commit_hangs_when_counters_differ (g : GState) (t : TState)
    (hws : t.write_set ≠ []) (hev : g.seqlock % 2 = 0)
    (hscan : validateScan g.accts t.read_set = true)
    (hdiff : countersDiffer t.snap_counter g.counter = true) :
    ∀ fuel, sw_commitF g t fuel = none := by
  intro fuel
  by_cases heq : g.seqlock = t.rv
  · cases fuel with
    | zero =>
      simp only [sw_commitF, casLoopF]
      rw [if_neg hws]
    | succ f =>
      simp only [sw_commitF]
      rw [if_neg hws]
      have hcas : casLoopF g t (f + 1) =
          some (Except.ok ({ g with seqlock := t.rv + 1 }, t)) := by
        simp only [casLoopF]
        rw [if_pos heq]
      rw [hcas]
      simp only [hdiff, if_true]
      rw [validate_odd_none _ (show (t.rv + 1) % 2 = 1 by omega) (f + 1) t]
  · cases fuel with
    | zero =>
      simp only [sw_commitF, casLoopF]
      rw [if_neg hws]
    | succ f =>
      cases f with
      | zero =>
        simp only [sw_commitF, casLoopF]
        rw [if_neg hws, if_neg heq]
        rfl
      | succ f' =>
        simp only [sw_commitF]
        rw [if_neg hws, casLoop_quiescent g t f' hev hscan]
        simp only [hdiff, if_true]
        rw [validate_odd_none _ (show (g.seqlock + 1) % 2 = 1 by omega)
          (f' + 2) { t with rv := g.seqlock }]

/-- C7 counterexample: a writing commit whose counter snapshot differs
from the live counters (one HTM commit since begin, states `gDiff` and
`tDiff`) never reaches writeback, release, or log clearing: the
counters-differ branch of the claim (validate once, then write back
and release) is false on the code, which hangs inside that validate. -/
theorem c7_counters_differ_counterexample :
    tDiff.write_set ≠ [] ∧
    countersDiffer tDiff.snap_counter gDiff.counter = true ∧
    commitDiverges gDiff tDiff :=
  ⟨by decide, by decide,
   commit_hangs_when_counters_differ gDiff tDiff (by decide) (by decide)
     (by decide) (by decide)⟩

/-- C7 (amended): a commit with a non-empty write set acquires the
window by CAS from `rv` to `rv + 1` (validating and retrying when
`seqlock` moved, i.e. differs from `rv`).  When every counter slot
equals its snapshot, the once-only validate of the concurrent-HTM
check is skipped, the buffered writes are applied to memory in
write-set order, the window is released at the even value
`seqlock + 2`, and both logs are cleared.  When some counter slot
differs, the single validate is invoked — but against the self-owned
odd `seqlock` it never returns, so the commit diverges instead of
writing back. -/
theorem c7_commit_spec (g : GState) (t : TState) (fuel : Nat)
    (hws : t.write_set ≠ [])
    (hev : g.seqlock % 2 = 0)
    (hscan : validateScan g.accts t.read_set = true) :
    (countersDiffer t.snap_counter g.counter = false →
      sw_commitF g t (fuel + 2) =
        some (Except.ok
          ({ g with
              accts := writeback g.accts t.write_set,
              seqlock := g.seqlock + 2 },
           { t with rv := g.seqlock, read_set := [], write_set := [] })) ∧
      (g.seqlock + 2) % 2 = 0) ∧
    (countersDiffer t.snap_counter g.counter = true →
      commitDiverges g t) := by
  constructor
  · intro hsnap
    constructor
    · simp only [sw_commitF]
      rw [if_neg hws, casLoop_quiescent g t fuel hev hscan]
      simp only [hsnap, commitFinish]
      rfl
    · omega
  · intro hdiff
    exact commit_hangs_when_counters_differ g t hws hev hscan hdiff

/-- C7 witness: the amended commit theorem at a concrete writing
transaction; its snapshot matches the live counters, so the
equal-counters branch applies and the differ branch holds vacuously. -/
theorem c7_commit_spec_witness :
    tCommit.write_set ≠ [] ∧ gCommit.seqlock % 2 = 0 ∧
    validateScan gCommit.accts tCommit.read_set = true ∧
    ((countersDiffer tCommit.snap_counter gCommit.counter = false →
        sw_commitF gCommit tCommit 2 =
          some (Except.ok
            ({ gCommit with
                accts := writeback gCommit.accts tCommit.write_set,
                seqlock := gCommit.seqlock + 2 },
             { tCommit with
                rv := gCommit.seqlock, read_set := [], write_set := [] })) ∧
        (gCommit.seqlock + 2) % 2 = 0) ∧
     (countersDiffer tCommit.snap_counter gCommit.counter = true →
        commitDiverges gCommit tCommit)) :=
  ⟨by decide, by decide, by decide,
   c7_commit_spec gCommit tCommit 0 (by decide) (by decide) (by decide)⟩

/-- C8 (confirmed): whichever TM routine raises the abort, the logs
are already cleared when control leaves it, and shared state is
untouched: `sw_validate` and `sw_read` abort with both logs empty
(and by their very type never write the global state), an aborting
`sw_commit` from an even quiescent `seqlock` leaves the global state
exactly as it was (writeback never starts on an aborting path), and
`sw_write` only appends to the thread-local write set. -/
theorem c8_abort_no_side_effects (g : GState) (t : TState) (fuel : Nat) :
    (∀ t', sw_validateF g t fuel = some (Except.error t') →
        t'.read_set = [] ∧ t'.write_set = []) ∧
    (∀ addr t', sw_readF g t addr fuel = some (Except.error t') →
        t'.read_set = [] ∧ t'.write_set = []) ∧
    (g.seqlock % 2 = 0 →
      ∀ g' t', sw_commitF g t fuel = some (Except.error (g', t')) →
        g' = g ∧ t'.read_set = [] ∧ t'.write_set = []) ∧
    (∀ addr val,
        (sw_write t addr val).read_set = t.read_set ∧
        (sw_write t addr val).rv = t.rv ∧
        (sw_write t addr val).write_set = t.write_set ++ [⟨addr, val⟩]) := by
  refine ⟨?_, ?_, ?_, ?_⟩
  · intro t' h
    exact validate_error_clears g fuel t t' h
  · intro addr t' h
    simp only [sw_readF] at h
    rcases hw : wsLookup addr t.write_set with _ | v
    · rw [hw] at h
      exact readLoop_error_clears g addr fuel t _ t' h
    · rw [hw] at h
      simp at h
  · intro hev g' t' h
    simp only [sw_commitF] at h
    split at h
    · simp at h
    · rcases hc : casLoopF g t fuel with _ | te | ⟨g1, t1⟩
      · rw [hc] at h
        simp at h
      · rw [hc] at h
        have h' : some (Except.error (g, te)) =
            some (Except.error (g', t')) := h
        simp only [Option.some.injEq, Except.error.injEq, Prod.mk.injEq] at h'
        obtain ⟨hg, ht⟩ := h'
        subst ht
        exact ⟨hg.symm, casLoop_error_clears g fuel t _ hc⟩
      · rw [hc] at h
        have hg1 := (casLoop_ok_shape g fuel t g1 t1 hc).1
        have hodd : g1.seqlock % 2 = 1 := by
          rw [hg1]
          simp only []
          omega
        have h' : (if countersDiffer t1.snap_counter g1.counter then
            (match sw_validateF g1 t1 fuel with
              | none => none
              | some (Except.error t'') => some (Except.error (g1, t''))
              | some (Except.ok t2) => some (Except.ok (commitFinish g1 t2)))
            else some (Except.ok (commitFinish g1 t1))) =
            some (Except.error (g', t')) := h
        split at h'
        · rw [validate_odd_none g1 hodd fuel t1] at h'
          simp at h'
        · simp at h'
  · intro addr val
    exact ⟨rfl, rfl, rfl⟩

/-- C8 witness: a validation failure (read set says 5, memory holds 7)
aborts with both logs cleared. -/
theorem c8_abort_no_side_effects_witness :
    sw_validateF gEven tMismatch 1 = some (Except.error t0) ∧
    t0.read_set = [] ∧ t0.write_set = [] :=
  ⟨by decide, (c8_abort_no_side_effects gEven tMismatch 1).1 t0 (by decide)⟩

/-- C9 counterexample: on a missing argument, a non-positive count and
a count above 64 alike, `main` prints the usage message but calls
`exit(0)`, so the exit code is zero, refuting "exits with a non-zero
exit code". -/
theorem c9_exit_zero_counterexample :
    mainCli 1 0 = CliOutcome.usage 0 ∧ mainCli 2 0 = CliOutcome.usage 0 ∧
    mainCli 2 65 = CliOutcome.usage 0 := by
  exact ⟨rfl, rfl, rfl⟩

/-- C9 (amended): for every invocation whose thread-count argument is
missing, non-positive, or greater than 64, the program prints the
usage message and exits with exit code 0. -/
theorem c9_usage_exit_amended (argc : Nat) (n : Int)
    (h : argc ≠ 2 ∨ n ≤ 0 ∨ n > 64) :
    mainCli argc n = CliOutcome.usage 0 := by
  by_cases ha : argc = 2
  · have hn : n ≤ 0 ∨ n > 64 := by
      rcases h with h | h
      · exact absurd ha h
      · exact h
    simp only [mainCli]
    rw [if_neg (not_not_intro ha), if_pos hn]
  · simp only [mainCli]
    rw [if_pos ha]

/-- C9 witness: the amended theorem at thread count 65. -/
theorem c9_usage_exit_amended_witness :
    ((2 : Nat) ≠ 2 ∨ (65 : Int) ≤ 0 ∨ (65 : Int) > 64) ∧
    mainCli 2 65 = CliOutcome.usage 0 :=
  ⟨by decide, c9_usage_exit_amended 2 65 (by decide)⟩

/-- C10 (confirmed): with `n` threads (the `n - 1` spawned workers
plus the main thread), each thread runs exactly `NUM_TXN / n`
transactions in integer division, so the total committed count is
`n * (NUM_TXN / n)`, strictly below `NUM_TXN` whenever `n` does not
divide `NUM_TXN`. -/
theorem c10_workload_total (n : Nat) (h1 : 1 ≤ n) (h2 : n ≤ 64) :
    threadCount n = n ∧
    totalCommitted n = n * (NUM_TXN / n) ∧
    (¬ (n ∣ NUM_TXN) → totalCommitted n < NUM_TXN) := by
  have hth : threadCount n = n := by
    unfold threadCount
    omega
  have htot : totalCommitted n = n * (NUM_TXN / n) := by
    unfold totalCommitted workloadOf
    rw [hth]
  refine ⟨hth, htot, ?_⟩
  intro hnd
  rw [htot]
  have hle : n * (NUM_TXN / n) ≤ NUM_TXN := by
    rw [Nat.mul_comm]
    exact Nat.div_mul_le_self NUM_TXN n
  refine lt_of_le_of_ne hle ?_
  intro heq
  exact hnd ⟨NUM_TXN / n, heq.symm⟩

/-- C10 witness: at three threads the total is 3 · 33333 = 99999,
strictly below 100000. -/
theorem c10_workload_total_witness :
    1 ≤ 3 ∧ 3 ≤ 64 ∧ totalCommitted 3 = 99999 ∧
    (threadCount 3 = 3 ∧ totalCommitted 3 = 3 * (NUM_TXN / 3) ∧
      (¬ ((3 : Nat) ∣ NUM_TXN) → totalCommitted 3 < NUM_TXN)) :=
  ⟨by decide, by decide, by decide, c10_workload_total 3 (by decide) (by decide)⟩

end HyNOrec
